import Mathlib

/-!
# Verification of the MCP agent orchestration core

Shallow embedding of the session registry, tool-name router,
conversation orchestration loop, streaming accumulator, result
formatting and registry teardown of the `how-to-build-a-coding-agent`
repository (packages `pkg/mcp` and `mcp_agent`), together with proofs
of the specified properties.

Go strings are modelled as Lean `String` (a list of characters); Go's
`strings.Split(s, "__")` is embedded as `goSplit2` below, acting on the
character list, with the same greedy leftmost non-overlapping semantics.
-/

namespace MCPAgent

variable {Sess Cfg A R : Type}

/-- Embedding of Go `strings.Split(s, "__")` specialised to the fixed
two-underscore separator used by `parseToolName`: scan left to right,
cut at each leftmost non-overlapping occurrence of `'_', '_'`. -/
def goSplit2 : List Char → List (List Char)
  | [] => [[]]
  | [c] => [[c]]
  | c1 :: c2 :: rest =>
    if c1 = '_' ∧ c2 = '_' then
      [] :: goSplit2 rest
    else
      match goSplit2 (c2 :: rest) with
      | [] => [[c1]]
      | p :: ps => (c1 :: p) :: ps

/-- Embedding of Go `strings.Count(s, "__")`: the number of leftmost
non-overlapping occurrences of the separator, exactly the count that
drives `strings.Split` (Go guarantees `len(Split(s,sep)) = Count(s,sep)+1`). -/
def goCount2 : List Char → Nat
  | [] => 0
  | [_] => 0
  | c1 :: c2 :: rest =>
    if c1 = '_' ∧ c2 = '_' then goCount2 rest + 1
    else goCount2 (c2 :: rest)

/-- `true` when the character list contains the two-underscore separator
somewhere (overlapping presence; presence is the same for both conventions). -/
def hasSep : List Char → Bool
  | c1 :: c2 :: rest => (c1 = '_' && c2 = '_') || hasSep (c2 :: rest)
  | _ => false

/-- Embedding of `parseToolName` (pkg/mcp): split the qualified name on
`"__"`; exactly two parts are required, otherwise the naming error
`invalid tool name format` is returned. -/
def parseToolName (name : String) : Except String (String × String) :=
  match goSplit2 name.data with
  | [a, b] => Except.ok (⟨a⟩, ⟨b⟩)
  | _ => Except.error ("invalid tool name format: " ++ name)

example : parseToolName "server__tool" = Except.ok ("server", "tool") := by rfl
example : parseToolName "a___b" = Except.ok ("a", "_b") := by rfl
example : (parseToolName "tool").isOk = false := by rfl
example : parseToolName "__" = Except.ok ("", "") := by rfl

/-! ## Session registry (pkg/mcp `Client`)

The transport layer (`connectToServer`) is an external effect; it is
abstracted as a `bind` oracle `String → Cfg → Option Sess` recording, for
each configured provider, whether its transport bind succeeded and with
which session handle. The registry itself — the `sessions` map built by
`NewClient`, looked up by `CallTool` — is embedded faithfully. A Go map
with unique keys is modelled as an association list. -/

/-- The `sessions` field of pkg/mcp's `Client`: provider name → session. -/
structure Client (Sess : Type) where
  sessions : List (String × Sess)
deriving DecidableEq

/-- The loop body of `NewClient`: attempt a bind for each configured
provider; a failure is logged and skipped (the provider is simply absent),
a success inserts the session under the provider's name. -/
def buildSessions (bind : String → Cfg → Option Sess) :
    List (String × Cfg) → List (String × Sess)
  | [] => []
  | e :: rest =>
    match bind e.1 e.2 with
    | some s => (e.1, s) :: buildSessions bind rest
    | none => buildSessions bind rest

/-- Embedding of `NewClient` (pkg/mcp): build the registry from the
configured providers; a bind failure never aborts construction. -/
def NewClient (bind : String → Cfg → Option Sess)
    (configs : List (String × Cfg)) : Client Sess :=
  ⟨buildSessions bind configs⟩

/-- Go map lookup `c.sessions[serverName]`. -/
def lookupSession (c : Client Sess) (name : String) : Option Sess :=
  (c.sessions.find? (fun e => e.1 == name)).map (fun e => e.2)

/-- Embedding of `Client.CallTool` (pkg/mcp): parse the qualified name,
look the provider up in the registry (absence is the unknown-provider
error `server <name> not found`), forward the local name and arguments to
the session, and wrap a provider-side failure as `failed to call tool:`.
The session's own behaviour is the external `callSession` oracle. -/
def CallTool (c : Client Sess) (callSession : Sess → String → A → Except String R)
    (name : String) (args : A) : Except String R :=
  match parseToolName name with
  | Except.error e => Except.error e
  | Except.ok st =>
    match lookupSession c st.1 with
    | none => Except.error ("server " ++ st.1 ++ " not found")
    | some session =>
      match callSession session st.2 args with
      | Except.error e => Except.error ("failed to call tool: " ++ e)
      | Except.ok result => Except.ok result

/-- The loop of `Client.Close` (pkg/mcp): close every owned session in
order, collecting the errors of the closes that failed; returns the list
of sessions on which close was invoked and the collected errors. -/
def closeAll (closeFn : Sess → Option String) :
    List (String × Sess) → List Sess × List String
  | [] => ([], [])
  | e :: rest =>
    let r := closeAll closeFn rest
    match closeFn e.2 with
    | some err => (e.2 :: r.1, err :: r.2)
    | none => (e.2 :: r.1, r.2)

/-- Embedding of `Client.Close` (pkg/mcp): `none` models the `nil` error
(all sessions closed cleanly); `some errs` models the single combined
`failed to close some connections: [...]` error carrying every collected
close failure. -/
def closeClient (closeFn : Sess → Option String) (c : Client Sess) :
    Option (List String) :=
  let errs := (closeAll closeFn c.sessions).2
  if errs.length > 0 then some errs else none

/-! ## Result formatting (mcp_agent/common.go) -/

/-- A Go `interface{}` value returned by a tool call, as discriminated by
`formatToolResult`'s type switch: a string, a byte slice (decoded as
text; bytes carried as the decoded characters), or any other value. A
non-string value carries the outcome of the external serializers applied
to it: `marshalled` is `json.MarshalIndent(v, "", "  ")`'s output when
that call succeeds (`none` when it errors) and `repr` is `fmt.Sprintf`'s
`%v` rendering, the fallback. -/
inductive GoVal where
  | str (s : String)
  | bytes (b : List Char)
  | other (repr : String) (marshalled : Option String)
deriving DecidableEq

/-- Embedding of `formatToolResult` (mcp_agent/common.go): strings pass
through verbatim, byte slices are decoded as text, any other value is
rendered by the indented JSON serializer, falling back to the `%v`
rendering when serialization fails. -/
def formatToolResult : GoVal → String
  | GoVal.str s => s
  | GoVal.bytes b => ⟨b⟩
  | GoVal.other r m =>
    match m with
    | some data => data
    | none => r

/-- Embedding of `truncateString` (mcp_agent/common.go): used only for the
on-screen preview of a tool result. Go slices bytes; with Go strings
modelled as character lists this is `take` on the characters. -/
def truncateString (s : String) (maxLen : Nat) : String :=
  if s.length ≤ maxLen then s
  else String.mk (s.data.take maxLen) ++ "... (truncated)"

/-! ## Conversation orchestrator (mcp_agent `Agent.Run`)

The inference provider is abstracted as an oracle
`infer : List Msg → String × List ToolCall` giving the assistant
message (content and tool calls) the model returns for a conversation,
and the router as `router : String → Args → Except String GoVal`
(in the program, `router` is `Client.CallTool`). The loop itself —
append user message, infer, execute each tool call in order appending a
tool message, re-infer until a message carries no tool calls — is
embedded faithfully, with a fuel bound standing for the unbounded Go
loop (`none` = the fuel ran out before the loop converged). -/

/-- Message roles of the conversation (`api.Message.Role`). -/
inductive Role where
  | user
  | assistant
  | tool
deriving DecidableEq

/-- One tool call carried by an assistant message
(`api.ToolCall.Function`): qualified name and arguments. Arguments are
opaque to the orchestrator; they are modelled as an association list. -/
structure ToolCall where
  name : String
  args : List (String × String)
deriving DecidableEq

/-- One conversation message (`api.Message`): role, content, the
correlating tool name (tool-role messages only) and the carried tool
calls (assistant messages only). -/
structure Msg where
  role : Role
  content : String
  toolName : String
  toolCalls : List ToolCall
deriving DecidableEq

/-- The user message `Agent.Run` appends for one line of input. -/
def userMsg (s : String) : Msg := ⟨Role.user, s, "", []⟩

/-- The assistant message appended for one inference result. -/
def assistantOf (p : String × List ToolCall) : Msg :=
  ⟨Role.assistant, p.1, "", p.2⟩

/-- The tool-role message `Agent.Run` appends for one tool call: on a
router error of any class the content is `Error: <error text>`, on
success the formatted full result; `ToolName` is the call's qualified
name in both cases. -/
def toolReply (router : String → List (String × String) → Except String GoVal)
    (tc : ToolCall) : Msg :=
  match router tc.name tc.args with
  | Except.error e => ⟨Role.tool, "Error: " ++ e, tc.name, []⟩
  | Except.ok r => ⟨Role.tool, formatToolResult r, tc.name, []⟩

/-- The `for _, toolCall := range message.ToolCalls` loop of `Agent.Run`:
execute each call in order, appending its tool message to the
conversation. -/
def execToolCalls (router : String → List (String × String) → Except String GoVal)
    (conv : List Msg) (tcs : List ToolCall) : List Msg :=
  tcs.foldl (fun c tc => c ++ [toolReply router tc]) conv

/-- The inner `for` loop of `Agent.Run`: given the conversation (already
holding the just-received assistant message) and that message, stop when
it carries no tool calls; otherwise execute all its calls, re-infer on
the grown conversation, append the new assistant message and repeat. -/
def innerLoop (infer : List Msg → String × List ToolCall)
    (router : String → List (String × String) → Except String GoVal) :
    Nat → List Msg → Msg → Option (List Msg)
  | 0, _, _ => none
  | fuel + 1, conv, message =>
    if message.toolCalls = [] then some conv
    else
      let conv2 := execToolCalls router conv message.toolCalls
      let m2 := assistantOf (infer conv2)
      innerLoop infer router fuel (conv2 ++ [m2]) m2

/-- One full user turn of `Agent.Run`: append the user message, run the
first inference, append its message and drive the inner loop. -/
def processTurn (infer : List Msg → String × List ToolCall)
    (router : String → List (String × String) → Except String GoVal)
    (fuel : Nat) (conv : List Msg) (userInput : String) : Option (List Msg) :=
  let conv1 := conv ++ [userMsg userInput]
  let m := assistantOf (infer conv1)
  innerLoop infer router fuel (conv1 ++ [m]) m

/-! ## Streaming inference (mcp_agent `Agent.runInferenceStreaming`) -/

/-- One streamed response fragment (`api.ChatResponse`): the carried
message and the completion flag. -/
structure ChatResponse where
  message : Msg
  done : Bool
deriving DecidableEq

/-- The accumulator of `runInferenceStreaming`: the message being built
and the text builder. -/
structure StreamAcc where
  finalMessage : Msg
  contentBuilder : String
deriving DecidableEq

/-- Embedding of the streaming callback `respFunc`
(mcp_agent/main.go): append the fragment's text to the builder; on the
completion fragment assign the whole fragment message as the final
message with the accumulated text as its content; then append the
fragment's tool calls to the final message's list. -/
def respStep (acc : StreamAcc) (resp : ChatResponse) : StreamAcc :=
  let cb :=
    if resp.message.content ≠ "" then acc.contentBuilder ++ resp.message.content
    else acc.contentBuilder
  let fm1 :=
    if resp.done then { resp.message with content := cb }
    else acc.finalMessage
  let fm2 :=
    if resp.message.toolCalls.length > 0 then
      { fm1 with toolCalls := fm1.toolCalls ++ resp.message.toolCalls }
    else fm1
  ⟨fm2, cb⟩

/-- Embedding of `runInferenceStreaming` (mcp_agent/main.go): fold the
callback over the arriving fragments and return the built message. -/
def runInferenceStreaming (resps : List ChatResponse) : Msg :=
  (resps.foldl respStep ⟨⟨Role.assistant, "", "", []⟩, ""⟩).finalMessage

/-! ## Conversation correlation -/

/-- Scan a conversation carrying the list of still-unanswered tool calls:
an assistant message (legal only with no pending calls) makes its calls
pending; each pending call must be answered by the very next messages,
one tool-role message per call with matching tool name, in order; a
tool message with nothing pending is illegal. `some p` = scan succeeded
leaving `p` pending at the end; `none` = correlation violated. -/
def scanCorr : List ToolCall → List Msg → Option (List ToolCall)
  | p, [] => some p
  | [], m :: rest =>
    if m.role = Role.assistant then scanCorr m.toolCalls rest
    else if m.role = Role.tool then none
    else scanCorr [] rest
  | tc :: tcs, m :: rest =>
    if m.role = Role.tool ∧ m.toolName = tc.name then scanCorr tcs rest
    else none

/-- Number of tool-role messages of a conversation. -/
def toolMsgCount (conv : List Msg) : Nat :=
  (conv.filter (fun m => m.role == Role.tool)).length

/-- Total number of tool calls across the assistant messages of a
conversation. -/
def totalToolCalls (conv : List Msg) : Nat :=
  (conv.map (fun m => if m.role == Role.assistant then m.toolCalls.length else 0)).sum

/-! ## Lemmas on the separator split -/

/-- Two-step list recursion, matching the shape of `goSplit2`. -/
def twoStepRec {motive : List Char → Prop} (h0 : motive [])
    (h1 : ∀ c, motive [c])
    (h2 : ∀ c1 c2 rest, motive rest → motive (c2 :: rest) →
      motive (c1 :: c2 :: rest)) :
    ∀ l, motive l
  | [] => h0
  | [c] => h1 c
  | c1 :: c2 :: rest =>
    h2 c1 c2 rest (twoStepRec h0 h1 h2 rest) (twoStepRec h0 h1 h2 (c2 :: rest))

theorem goSplit2_ne_nil (l : List Char) : goSplit2 l ≠ [] := by
  induction l using twoStepRec with
  | h0 => simp [goSplit2]
  | h1 c => simp [goSplit2]
  | h2 c1 c2 rest ih1 ih2 =>
    by_cases h : c1 = '_' ∧ c2 = '_'
    · simp [goSplit2, h]
    · simp only [goSplit2, if_neg h]
      rcases hs : goSplit2 (c2 :: rest) with _ | ⟨p, ps⟩
      · simp
      · simp

theorem hasSep_cons_cons (c1 c2 : Char) (rest : List Char) :
    hasSep (c1 :: c2 :: rest) = false ↔
      ¬(c1 = '_' ∧ c2 = '_') ∧ hasSep (c2 :: rest) = false := by
  simp [hasSep]

/-- A separator-free string is split into a single part. -/
theorem goSplit2_eq_single (l : List Char) (h : hasSep l = false) :
    goSplit2 l = [l] := by
  induction l using twoStepRec with
  | h0 => simp [goSplit2]
  | h1 c => simp [goSplit2]
  | h2 c1 c2 rest ih1 ih2 =>
    rw [hasSep_cons_cons] at h
    simp only [goSplit2, if_neg h.1]
    rw [ih2 h.2]

/-- Splitting `p ++ "__" ++ t` cuts first exactly at the appended
separator, provided `p` is separator-free and does not end in `'_'`. -/
theorem goSplit2_append_sep (p t : List Char) (hps : hasSep p = false)
    (hend : p.getLast? ≠ some '_') :
    goSplit2 (p ++ '_' :: '_' :: t) = p :: goSplit2 t := by
  induction p using twoStepRec with
  | h0 => simp [goSplit2]
  | h1 c =>
    have hc : ¬(c = '_' ∧ ('_' : Char) = '_') := by
      intro hc
      exact hend (by simp [hc.1])
    show goSplit2 (c :: '_' :: '_' :: t) = [c] :: goSplit2 t
    have hmid : goSplit2 ('_' :: '_' :: t) = [] :: goSplit2 t := by
      rw [goSplit2, if_pos ⟨rfl, rfl⟩]
    rw [goSplit2, if_neg hc, hmid]
  | h2 c1 c2 rest ih1 ih2 =>
    rw [hasSep_cons_cons] at hps
    have hend2 : (c2 :: rest).getLast? ≠ some '_' := by
      rwa [List.getLast?_cons_cons] at hend
    have := ih2 hps.2 hend2
    simp only [List.cons_append] at this ⊢
    simp only [goSplit2, if_neg hps.1]
    rw [this]

/-- The number of parts is the number of separator occurrences plus one
(Go: `len(strings.Split(s, sep)) == strings.Count(s, sep) + 1`). -/
theorem goSplit2_length (l : List Char) :
    (goSplit2 l).length = goCount2 l + 1 := by
  induction l using twoStepRec with
  | h0 => simp [goSplit2, goCount2]
  | h1 c => simp [goSplit2, goCount2]
  | h2 c1 c2 rest ih1 ih2 =>
    by_cases h : c1 = '_' ∧ c2 = '_'
    · simp [goSplit2, goCount2, h, ih1]
    · simp only [goSplit2, goCount2, if_neg h]
      rcases hs : goSplit2 (c2 :: rest) with _ | ⟨p, ps⟩
      · exact absurd hs (goSplit2_ne_nil _)
      · rw [hs] at ih2
        simpa using ih2

/-! ## C1: aggregate/parse round-trip -/

/-- C1 (counterexample): the round-trip claim fails as stated. The
provider name `"a_"` and tool name `"b"` are both non-empty and contain
no occurrence of the separator `"__"`, yet parsing the qualified name
`"a_" ++ "__" ++ "b" = "a___b"` yields `("a", "_b")`, not `("a_", "b")`:
the split cuts at the leftmost occurrence of `"__"`, which starts inside
the trailing underscore of the provider name. -/
theorem parseToolName_roundtrip_cex :
    hasSep (String.data "a_") = false ∧ ("a_" : String) ≠ "" ∧
    hasSep (String.data "b") = false ∧ ("b" : String) ≠ "" ∧
    parseToolName ("a_" ++ "__" ++ "b") = Except.ok ("a", "_b") ∧
    (("a" : String), ("_b" : String)) ≠ (("a_" : String), ("b" : String)) := by
  refine ⟨rfl, by decide, rfl, by decide, rfl, by decide⟩

/-- C1 (amended): for every provider name `p` and local tool name `t`
that are non-empty and contain no occurrence of the separator `"__"`,
and such that `p` does not end in the character `'_'`, parsing the
qualified name `p ++ "__" ++ t` with `parseToolName` yields exactly
`(p, t)`; so aggregating (building the qualified name in `GetTools`)
then parsing (in `CallTool`) recovers the provider and local tool name
for such names. -/
theorem parseToolName_roundtrip (p t : String) (hp : p ≠ "") (ht : t ≠ "")
    (hps : hasSep p.data = false) (hts : hasSep t.data = false)
    (hend : p.data.getLast? ≠ some '_') :
    parseToolName (p ++ "__" ++ t) = Except.ok (p, t) := by
  obtain ⟨pd⟩ := p
  obtain ⟨td⟩ := t
  have hdata : (String.mk pd ++ "__" ++ String.mk td).data =
      pd ++ '_' :: '_' :: td := by
    show (pd ++ "__".data) ++ td = pd ++ '_' :: '_' :: td
    rw [List.append_assoc]
    rfl
  unfold parseToolName
  rw [hdata, goSplit2_append_sep pd td hps hend, goSplit2_eq_single td hts]

/-- C1 witness: the amended round-trip at the concrete provider
`"server"` and tool `"tool"`. -/
theorem parseToolName_roundtrip_witness :
    parseToolName ("server" ++ "__" ++ "tool") = Except.ok ("server", "tool") :=
  parseToolName_roundtrip "server" "tool" (by decide) (by decide) rfl rfl
    (by decide)

/-! ## C2: rejection of malformed qualified names -/

/-- C2: `parseToolName` returns the naming error
`invalid tool name format` exactly when the input contains zero
occurrences of the separator `"__"` or more than one occurrence
(occurrences counted as `strings.Count` does, leftmost
non-overlapping — the count that drives `strings.Split`); in
particular `"tool"` and `"server__tool__extra"` are rejected while
`"server__tool"` parses as `("server", "tool")`. -/
theorem parseToolName_reject_iff :
    (∀ s : String,
      parseToolName s = Except.error ("invalid tool name format: " ++ s) ↔
        (goCount2 s.data = 0 ∨ 1 < goCount2 s.data)) ∧
    parseToolName "tool" = Except.error "invalid tool name format: tool" ∧
    parseToolName "server__tool__extra" =
      Except.error "invalid tool name format: server__tool__extra" ∧
    parseToolName "server__tool" = Except.ok ("server", "tool") := by
  refine ⟨fun s => ?_, rfl, rfl, rfl⟩
  have hne := goSplit2_ne_nil s.data
  have hlen := goSplit2_length s.data
  unfold parseToolName
  rcases hsplit : goSplit2 s.data with _ | ⟨a, _ | ⟨b, _ | ⟨c, t⟩⟩⟩
  · exact absurd hsplit hne
  · rw [hsplit] at hlen
    simp only [List.length_cons, List.length_nil] at hlen
    simp only [hsplit]
    constructor
    · intro _
      left
      omega
    · intro _
      trivial
  · rw [hsplit] at hlen
    simp only [List.length_cons, List.length_nil] at hlen
    simp only [hsplit]
    constructor
    · intro h
      exact absurd h (by simp)
    · intro h
      omega
  · rw [hsplit] at hlen
    simp only [List.length_cons, List.length_nil] at hlen
    simp only [hsplit]
    constructor
    · intro _
      right
      omega
    · intro _
      trivial

/-! ## Registry lemmas -/

theorem buildSessions_find_ne (bind : String → Cfg → Option Sess)
    (e : String × Cfg) (rest : List (String × Cfg)) (name : String)
    (h : ¬ e.1 = name) :
    (buildSessions bind (e :: rest)).find? (fun x => x.1 == name) =
      (buildSessions bind rest).find? (fun x => x.1 == name) := by
  simp only [buildSessions]
  rcases hb : bind e.1 e.2 with _ | s
  · rfl
  · rw [List.find?_cons_of_neg]
    simp [h]

theorem lookup_newClient_not_mem (bind : String → Cfg → Option Sess)
    (configs : List (String × Cfg)) (name : String)
    (h : name ∉ configs.map Prod.fst) :
    lookupSession (NewClient bind configs) name = none := by
  induction configs with
  | nil => rfl
  | cons e rest ih =>
    simp only [List.map_cons, List.mem_cons, not_or] at h
    unfold lookupSession NewClient
    rw [buildSessions_find_ne bind e rest name (by exact fun he => h.1 he.symm)]
    exact ih h.2

theorem lookup_newClient_some (bind : String → Cfg → Option Sess)
    (configs : List (String × Cfg)) (hnd : (configs.map Prod.fst).Nodup)
    (name : String) (cfg : Cfg) (s : Sess) (hmem : (name, cfg) ∈ configs)
    (hb : bind name cfg = some s) :
    lookupSession (NewClient bind configs) name = some s := by
  induction configs with
  | nil => simp at hmem
  | cons e rest ih =>
    simp only [List.map_cons, List.nodup_cons] at hnd
    rcases List.mem_cons.mp hmem with he | hrest
    · subst he
      unfold lookupSession NewClient buildSessions
      rw [hb]
      rw [List.find?_cons_of_pos]
      · rfl
      · simp
    · have hne : ¬ e.1 = name := by
        intro heq
        exact hnd.1 (heq ▸ List.mem_map_of_mem Prod.fst hrest)
      unfold lookupSession NewClient
      rw [buildSessions_find_ne bind e rest name hne]
      exact ih hnd.2 hrest

theorem lookup_newClient_none (bind : String → Cfg → Option Sess)
    (configs : List (String × Cfg)) (hnd : (configs.map Prod.fst).Nodup)
    (name : String) (cfg : Cfg) (hmem : (name, cfg) ∈ configs)
    (hb : bind name cfg = none) :
    lookupSession (NewClient bind configs) name = none := by
  induction configs with
  | nil => simp at hmem
  | cons e rest ih =>
    simp only [List.map_cons, List.nodup_cons] at hnd
    rcases List.mem_cons.mp hmem with he | hrest
    · subst he
      unfold lookupSession NewClient buildSessions
      rw [hb]
      exact lookup_newClient_not_mem bind rest name hnd.1
    · have hne : ¬ e.1 = name := by
        intro heq
        exact hnd.1 (heq ▸ List.mem_map_of_mem Prod.fst hrest)
      unfold lookupSession NewClient
      rw [buildSessions_find_ne bind e rest name hne]
      exact ih hnd.2 hrest

theorem CallTool_of_parse (c : Client Sess)
    (callSession : Sess → String → A → Except String R) (name : String)
    (args : A) (pn tn : String)
    (hparse : parseToolName name = Except.ok (pn, tn)) :
    CallTool c callSession name args =
      (match lookupSession c pn with
       | none => Except.error ("server " ++ pn ++ " not found")
       | some s =>
         match callSession s tn args with
         | Except.error e => Except.error ("failed to call tool: " ++ e)
         | Except.ok r => Except.ok r) := by
  unfold CallTool
  rw [hparse]

/-! ## C5: partial availability of the registry -/

/-- C5: registry construction keeps exactly the providers whose bind
succeeded (a bind failure is skipped, never aborting construction); a
qualified call routed to a failed or unknown provider's name yields the
unknown-provider error, while a call routed to a bound provider reaches
its session and is wrapped untouched. -/
theorem newClient_partial_availability
    (bind : String → Cfg → Option Sess) (configs : List (String × Cfg))
    (hnd : (configs.map Prod.fst).Nodup) :
    (∀ name cfg s, (name, cfg) ∈ configs → bind name cfg = some s →
      lookupSession (NewClient bind configs) name = some s) ∧
    (∀ name cfg, (name, cfg) ∈ configs → bind name cfg = none →
      lookupSession (NewClient bind configs) name = none) ∧
    (∀ name, name ∉ configs.map Prod.fst →
      lookupSession (NewClient bind configs) name = none) ∧
    (∀ (callSession : Sess → String → A → Except String R) name t args,
      lookupSession (NewClient bind configs) name = none →
      name ≠ "" → t ≠ "" → hasSep name.data = false → hasSep t.data = false →
      name.data.getLast? ≠ some '_' →
      CallTool (NewClient bind configs) callSession (name ++ "__" ++ t) args =
        Except.error ("server " ++ name ++ " not found")) ∧
    (∀ (callSession : Sess → String → A → Except String R) name s t args,
      lookupSession (NewClient bind configs) name = some s →
      name ≠ "" → t ≠ "" → hasSep name.data = false → hasSep t.data = false →
      name.data.getLast? ≠ some '_' →
      CallTool (NewClient bind configs) callSession (name ++ "__" ++ t) args =
        (match callSession s t args with
         | Except.error e => Except.error ("failed to call tool: " ++ e)
         | Except.ok r => Except.ok r)) := by
  refine ⟨fun name cfg s hmem hb => lookup_newClient_some bind configs hnd name cfg s hmem hb,
    fun name cfg hmem hb => lookup_newClient_none bind configs hnd name cfg hmem hb,
    fun name h => lookup_newClient_not_mem bind configs name h,
    fun callSession name t args hlook hn ht hs1 hs2 hend => ?_,
    fun callSession name s t args hlook hn ht hs1 hs2 hend => ?_⟩
  · rw [CallTool_of_parse _ _ _ _ name t
      (parseToolName_roundtrip name t hn ht hs1 hs2 hend)]
    rw [hlook]
  · rw [CallTool_of_parse _ _ _ _ name t
      (parseToolName_roundtrip name t hn ht hs1 hs2 hend)]
    rw [hlook]

/-- Example provider configurations for the registry witnesses: the
provider `fs` binds successfully (session handle `42`), the provider
`web` fails to bind. -/
def bindEx : String → Nat → Option Nat :=
  fun n _ => if n = "fs" then some 42 else none

def configsEx : List (String × Nat) := [("fs", 0), ("web", 1)]

/-- Example session behaviour: every tool call on a session echoes a
string result naming the session and tool. -/
def callSessionEx : Nat → String → List (String × String) → Except String GoVal :=
  fun s tool _ => Except.ok (GoVal.str (toString s ++ ":" ++ tool))

/-- C5 witness: on the concrete configurations, `fs` is in the registry
with its session, `web` is absent, a call to `web__read` fails with the
unknown-provider error and a call to `fs__read` reaches the session. -/
theorem newClient_partial_availability_witness :
    lookupSession (NewClient bindEx configsEx) "fs" = some 42 ∧
    lookupSession (NewClient bindEx configsEx) "web" = none ∧
    CallTool (NewClient bindEx configsEx) callSessionEx "web__read" [] =
      Except.error "server web not found" ∧
    CallTool (NewClient bindEx configsEx) callSessionEx "fs__read" [] =
      Except.ok (GoVal.str "42:read") := by
  have h := @newClient_partial_availability Nat Nat (List (String × String)) GoVal
    bindEx configsEx (by decide)
  refine ⟨h.1 "fs" 0 42 (by decide) rfl, h.2.1 "web" 1 (by decide) rfl, ?_, ?_⟩
  · have := h.2.2.2.1 callSessionEx "web" "read" []
      (h.2.1 "web" 1 (by decide) rfl) (by decide) (by decide) rfl rfl (by decide)
    exact this
  · have := h.2.2.2.2 callSessionEx "fs" 42 "read" []
      (h.1 "fs" 0 42 (by decide) rfl) (by decide) (by decide) rfl rfl (by decide)
    exact this

/-! ## C10: empty provider and tool names around the separator -/

/-- C10: `parseToolName` accepts `"__"` (one separator, both sides
empty), returning the empty provider and tool name, so `CallTool` on
`"__"` is not a naming error but proceeds to registry lookup and fails
with the unknown-provider error for the empty provider name, while the
empty string as a whole input is a naming error. -/
theorem parseToolName_empty_sides
    (c : Client Sess) (callSession : Sess → String → A → Except String R)
    (args : A) (hlook : lookupSession c "" = none) :
    parseToolName "__" = Except.ok ("", "") ∧
    parseToolName "" = Except.error "invalid tool name format: " ∧
    CallTool c callSession "__" args = Except.error "server  not found" := by
  refine ⟨rfl, rfl, ?_⟩
  rw [CallTool_of_parse c callSession "__" args "" "" rfl, hlook]
  rfl

/-- C10 witness: the registry built from the example configurations has
no session under the empty provider name, and `CallTool` on `"__"`
against it yields the unknown-provider error for the empty name. -/
theorem parseToolName_empty_sides_witness :
    CallTool (NewClient bindEx configsEx) callSessionEx "__" [] =
      Except.error "server  not found" :=
  (parseToolName_empty_sides (NewClient bindEx configsEx) callSessionEx []
    (by rfl)).2.2

/-! ## C8: registry teardown -/

theorem closeAll_spec (closeFn : Sess → Option String)
    (sessions : List (String × Sess)) :
    (closeAll closeFn sessions).1 = sessions.map (fun e => e.2) ∧
    (closeAll closeFn sessions).2 =
      sessions.filterMap (fun e => closeFn e.2) := by
  induction sessions with
  | nil => exact ⟨rfl, rfl⟩
  | cons e rest ih =>
    simp only [closeAll, List.map_cons, List.filterMap_cons]
    rcases hc : closeFn e.2 with _ | err
    · simpa [hc] using ih
    · simpa [hc] using ih

/-- C8: one `Close` invokes every owned session's close exactly once
(the closed trace is exactly the session list, so an individual close
failure never prevents closing the rest), and the returned value is
`none` (Go `nil`) precisely when every session closed cleanly, and
otherwise the single combined error enumerating, in order, the close
error of every provider that failed. -/
theorem closeClient_aggregates (closeFn : Sess → Option String)
    (c : Client Sess) :
    (closeAll closeFn c.sessions).1 = c.sessions.map (fun e => e.2) ∧
    (closeClient closeFn c = none ↔
      ∀ e ∈ c.sessions, closeFn e.2 = none) ∧
    (∀ errs, closeClient closeFn c = some errs →
      errs ≠ [] ∧ errs = c.sessions.filterMap (fun e => closeFn e.2)) := by
  obtain ⟨htrace, herrs⟩ := closeAll_spec closeFn c.sessions
  have key : closeClient closeFn c =
      (if (c.sessions.filterMap (fun e => closeFn e.2)).length > 0 then
        some (c.sessions.filterMap (fun e => closeFn e.2)) else none) := by
    unfold closeClient
    rw [herrs]
  refine ⟨htrace, ?_, ?_⟩
  · rw [key]
    rcases Nat.eq_zero_or_pos (c.sessions.filterMap (fun e => closeFn e.2)).length
      with h0 | hpos
    · rw [if_neg (by omega)]
      have hnil : c.sessions.filterMap (fun e => closeFn e.2) = [] :=
        List.eq_nil_of_length_eq_zero h0
      rw [List.filterMap_eq_nil_iff] at hnil
      exact ⟨fun _ e he => hnil e he, fun _ => rfl⟩
    · rw [if_pos hpos]
      constructor
      · intro h
        exact absurd h (by simp)
      · intro hall
        exfalso
        have hnil : c.sessions.filterMap (fun e => closeFn e.2) = [] :=
          List.filterMap_eq_nil_iff.mpr (fun e he => hall e he)
        rw [hnil] at hpos
        simp at hpos
  · intro errs h
    rw [key] at h
    rcases Nat.eq_zero_or_pos (c.sessions.filterMap (fun e => closeFn e.2)).length
      with h0 | hpos
    · rw [if_neg (by omega)] at h
      simp at h
    · rw [if_pos hpos] at h
      have herr := Option.some.inj h
      subst herr
      exact ⟨List.length_pos.mp hpos, rfl⟩

/-- Example sessions and close behaviour for the teardown witness:
session `1` fails to close, sessions `0` and `2` close cleanly. -/
def closeFnEx : Nat → Option String := fun s => if s = 1 then some "broken pipe" else none

def clientEx : Client Nat := ⟨[("fs", 0), ("web", 1), ("db", 2)]⟩

/-- C8 witness: on the concrete registry, all three sessions are closed
in order and the combined error enumerates exactly the one failure. -/
theorem closeClient_aggregates_witness :
    (closeAll closeFnEx clientEx.sessions).1 = [0, 1, 2] ∧
    closeClient closeFnEx clientEx = some ["broken pipe"] ∧
    closeClient closeFnEx ⟨[("fs", 0), ("db", 2)]⟩ = none := by
  refine ⟨(closeClient_aggregates closeFnEx clientEx).1, ?_, ?_⟩
  · have h := (closeClient_aggregates closeFnEx clientEx).2.2 ["broken pipe"] rfl
    rfl
  · exact ((closeClient_aggregates closeFnEx ⟨[("fs", 0), ("db", 2)]⟩).2.1).mpr
      (by decide)

/-! ## Orchestrator lemmas -/

theorem execToolCalls_eq (router : String → List (String × String) → Except String GoVal)
    (conv : List Msg) (tcs : List ToolCall) :
    execToolCalls router conv tcs = conv ++ tcs.map (toolReply router) := by
  induction tcs generalizing conv with
  | nil => simp [execToolCalls]
  | cons tc tcs ih =>
    have hstep : execToolCalls router conv (tc :: tcs) =
        execToolCalls router (conv ++ [toolReply router tc]) tcs := rfl
    rw [hstep, ih]
    simp

theorem toolReply_role (router : String → List (String × String) → Except String GoVal)
    (tc : ToolCall) : (toolReply router tc).role = Role.tool := by
  unfold toolReply
  rcases router tc.name tc.args with _ | _ <;> rfl

theorem toolReply_toolName (router : String → List (String × String) → Except String GoVal)
    (tc : ToolCall) : (toolReply router tc).toolName = tc.name := by
  unfold toolReply
  rcases router tc.name tc.args with _ | _ <;> rfl

theorem toolMsgCount_cons (m : Msg) (msgs : List Msg) :
    toolMsgCount (m :: msgs) =
      (if m.role = Role.tool then 1 else 0) + toolMsgCount msgs := by
  simp only [toolMsgCount, List.filter_cons]
  by_cases h : m.role = Role.tool
  · simp [h, Nat.add_comm]
  · simp [h]

theorem totalToolCalls_cons (m : Msg) (msgs : List Msg) :
    totalToolCalls (m :: msgs) =
      (if m.role = Role.assistant then m.toolCalls.length else 0) +
        totalToolCalls msgs := by
  simp only [totalToolCalls, List.map_cons, List.sum_cons]
  by_cases h : m.role = Role.assistant
  · simp [h]
  · simp [h]

theorem scanCorr_append (xs ys : List Msg) (p : List ToolCall) :
    scanCorr p (xs ++ ys) = (scanCorr p xs).bind (fun q => scanCorr q ys) := by
  induction xs generalizing p with
  | nil => simp [scanCorr]
  | cons m xs ih =>
    rcases p with _ | ⟨tc, tcs⟩
    · by_cases ha : m.role = Role.assistant
      · simp [scanCorr, ha, ih]
      · by_cases htool : m.role = Role.tool
        · simp [scanCorr, ha, htool]
        · simp [scanCorr, ha, htool, ih]
    · by_cases hc : m.role = Role.tool ∧ m.toolName = tc.name
      · simp [scanCorr, hc, ih]
      · simp [scanCorr, hc]

theorem scanCorr_count (msgs : List Msg) (p q : List ToolCall)
    (h : scanCorr p msgs = some q) :
    toolMsgCount msgs + q.length = p.length + totalToolCalls msgs := by
  induction msgs generalizing p with
  | nil =>
    simp only [scanCorr, Option.some.injEq] at h
    subst h
    simp [toolMsgCount, totalToolCalls]
  | cons m msgs ih =>
    rw [toolMsgCount_cons, totalToolCalls_cons]
    rcases p with _ | ⟨tc, tcs⟩
    · by_cases ha : m.role = Role.assistant
      · simp only [scanCorr, ha, if_pos rfl] at h
        have := ih m.toolCalls h
        simp [ha]
        omega
      · by_cases htool : m.role = Role.tool
        · simp [scanCorr, ha, htool] at h
        · simp only [scanCorr, if_neg ha, if_neg htool] at h
          have := ih [] h
          simp only [List.length_nil] at this
          simp [ha, htool]
          omega
    · by_cases hc : m.role = Role.tool ∧ m.toolName = tc.name
      · simp only [scanCorr, if_pos hc] at h
        have := ih tcs h
        have hna : ¬ m.role = Role.assistant := by
          rw [hc.1]
          intro hx
          cases hx
        simp [hc.1, hna]
        omega
      · simp [scanCorr, hc] at h

theorem scanCorr_replies (router : String → List (String × String) → Except String GoVal)
    (tcs : List ToolCall) (ys : List Msg) :
    scanCorr tcs (tcs.map (toolReply router) ++ ys) = scanCorr [] ys := by
  induction tcs with
  | nil => rfl
  | cons tc tcs ih =>
    have hcond : (toolReply router tc).role = Role.tool ∧
        (toolReply router tc).toolName = tc.name :=
      ⟨toolReply_role router tc, toolReply_toolName router tc⟩
    simp only [List.map_cons, List.cons_append, scanCorr, if_pos hcond]
    exact ih

theorem scanCorr_assistant_end (xs : List Msg) (p : String × List ToolCall)
    (h : scanCorr [] xs = some []) :
    scanCorr [] (xs ++ [assistantOf p]) = some (assistantOf p).toolCalls := by
  rw [scanCorr_append, h]
  have ha : (assistantOf p).role = Role.assistant := rfl
  simp [scanCorr, ha]

theorem innerLoop_scanCorr (infer : List Msg → String × List ToolCall)
    (router : String → List (String × String) → Except String GoVal)
    (fuel : Nat) (conv : List Msg) (message : Msg) (final : List Msg)
    (hscan : scanCorr [] conv = some message.toolCalls)
    (hrun : innerLoop infer router fuel conv message = some final) :
    scanCorr [] final = some [] := by
  induction fuel generalizing conv message with
  | zero => simp [innerLoop] at hrun
  | succ fuel ih =>
    by_cases hmt : message.toolCalls = []
    · simp only [innerLoop, if_pos hmt, Option.some.injEq] at hrun
      subst hrun
      rw [hscan, hmt]
    · simp only [innerLoop, if_neg hmt] at hrun
      apply ih _ _ ?_ hrun
      have hexec : scanCorr [] (execToolCalls router conv message.toolCalls) =
          some [] := by
        rw [execToolCalls_eq, scanCorr_append, hscan]
        have := scanCorr_replies router message.toolCalls []
        rw [List.append_nil] at this
        simp only [Option.some_bind, this]
        rfl
      exact scanCorr_assistant_end _ _ hexec

/-! ## Concrete scenario: unknown provider `ghost`

The registry is the one built from the example configurations (only
`fs` bound). The model asks for the tool `ghost__read` on the first
round and converges on the second. -/

def ghostCall : ToolCall := ⟨"ghost__read", []⟩

def ghostRouter : String → List (String × String) → Except String GoVal :=
  fun name args => CallTool (NewClient bindEx configsEx) callSessionEx name args

def inferGhost : List Msg → String × List ToolCall :=
  fun conv => if conv.length ≤ 1 then ("", [ghostCall]) else ("done", [])

def finalGhost : List Msg :=
  [userMsg "hi", assistantOf ("", [ghostCall]),
   ⟨Role.tool, "Error: server ghost not found", "ghost__read", []⟩,
   assistantOf ("done", [])]

/-! ## C4: conversation correlation invariant -/

/-- C4: for every completed run of one user turn of the orchestration
loop — any inference oracle, any router (so also when the router
returns errors), any fuel — the final conversation scans as fully
correlated: each tool call of an assistant message is answered, before
anything else, by exactly one tool-role message with the matching tool
name, in order (`scanCorr`), and consequently the number of tool-role
messages equals the total number of tool calls across assistant
messages. -/
theorem run_correlation_invariant
    (infer : List Msg → String × List ToolCall)
    (router : String → List (String × String) → Except String GoVal)
    (fuel : Nat) (conv : List Msg) (userInput : String) (final : List Msg)
    (hstart : scanCorr [] conv = some [])
    (hrun : processTurn infer router fuel conv userInput = some final) :
    scanCorr [] final = some [] ∧ toolMsgCount final = totalToolCalls final := by
  simp only [processTurn] at hrun
  have huser : scanCorr [] (conv ++ [userMsg userInput]) = some [] := by
    rw [scanCorr_append, hstart]
    rfl
  have hm := scanCorr_assistant_end (conv ++ [userMsg userInput])
    (infer (conv ++ [userMsg userInput])) huser
  have hfin := innerLoop_scanCorr infer router fuel _ _ final hm hrun
  refine ⟨hfin, ?_⟩
  have := scanCorr_count final [] [] hfin
  simpa using this

/-- C4 witness: the invariant holds of the completed concrete run
through the `ghost` scenario. -/
theorem run_correlation_invariant_witness :
    scanCorr [] finalGhost = some [] ∧
    toolMsgCount finalGhost = totalToolCalls finalGhost :=
  run_correlation_invariant inferGhost ghostRouter 2 [] "hi" finalGhost rfl rfl

/-! ## C9: convergence on a message with zero tool calls -/

/-- C9: whenever the inference provider returns a message with zero tool
calls, the inner orchestration loop terminates at once and hands the
conversation back (control returns to awaiting user input), whatever
conversation state any number of preceding tool-call rounds produced. -/
theorem inference_convergence (infer : List Msg → String × List ToolCall)
    (router : String → List (String × String) → Except String GoVal)
    (fuel : Nat) (conv : List Msg) (message : Msg)
    (h : message.toolCalls = []) (hf : 0 < fuel) :
    innerLoop infer router fuel conv message = some conv := by
  rcases fuel with _ | fuel
  · exact absurd hf (by simp)
  · simp only [innerLoop, if_pos h]

/-- C9 witness: convergence at the concrete state reached after the
`ghost` scenario's rounds. -/
theorem inference_convergence_witness :
    innerLoop inferGhost ghostRouter 1 finalGhost (assistantOf ("done", [])) =
      some finalGhost :=
  inference_convergence inferGhost ghostRouter 1 finalGhost
    (assistantOf ("done", [])) rfl (by decide)

/-! ## C6: error feedback never aborts the loop -/

/-- C6: a tool call whose invocation errors — naming error, unknown
provider, or provider execution failure — yields a tool-role message
whose content is `Error: ` followed by the error text, and the loop
proceeds to the next inference round rather than aborting; on the
concrete unknown-provider scenario, calling `ghost__read` against a
registry without `ghost` produces the tool message content
`Error: server ghost not found` and the turn still runs to
completion. -/
theorem tool_error_feedback :
    (∀ (router : String → List (String × String) → Except String GoVal)
      (tc : ToolCall) (e : String), router tc.name tc.args = Except.error e →
      toolReply router tc = ⟨Role.tool, "Error: " ++ e, tc.name, []⟩) ∧
    (∀ (infer : List Msg → String × List ToolCall)
      (router : String → List (String × String) → Except String GoVal)
      (fuel : Nat) (conv : List Msg) (message : Msg), message.toolCalls ≠ [] →
      innerLoop infer router (fuel + 1) conv message =
        innerLoop infer router fuel
          (execToolCalls router conv message.toolCalls ++
            [assistantOf (infer (execToolCalls router conv message.toolCalls))])
          (assistantOf (infer (execToolCalls router conv message.toolCalls)))) ∧
    ghostRouter "ghost__read" [] = Except.error "server ghost not found" ∧
    toolReply ghostRouter ghostCall =
      ⟨Role.tool, "Error: server ghost not found", "ghost__read", []⟩ ∧
    processTurn inferGhost ghostRouter 2 [] "hi" = some finalGhost := by
  refine ⟨?_, ?_, rfl, rfl, rfl⟩
  · intro router tc e h
    unfold toolReply
    rw [h]
  · intro infer router fuel conv message hmt
    simp only [innerLoop, if_neg hmt]

/-! ## C7: result formatting and bounded preview -/

/-- C7: a string tool result is stored verbatim and a byte result as its
text decoding, any other result is rendered by the indented JSON
serializer (falling back to the generic rendering only if the
serializer fails); the on-screen preview keeps at most the first 500
characters (plus a fixed 15-character marker, so its length is bounded
by 515), while the message appended to the conversation always carries
the full, untruncated result text. -/
theorem result_formatting :
    (∀ s, formatToolResult (GoVal.str s) = s) ∧
    (∀ b, formatToolResult (GoVal.bytes b) = String.mk b) ∧
    (∀ r doc, formatToolResult (GoVal.other r (some doc)) = doc) ∧
    (∀ r, formatToolResult (GoVal.other r none) = r) ∧
    (∀ s : String, s.length ≤ 500 → truncateString s 500 = s) ∧
    (∀ s : String, 500 < s.length →
      truncateString s 500 = String.mk (s.data.take 500) ++ "... (truncated)") ∧
    (∀ s : String, (truncateString s 500).length ≤ 515) ∧
    (∀ (router : String → List (String × String) → Except String GoVal)
      (tc : ToolCall) (r : GoVal), router tc.name tc.args = Except.ok r →
      toolReply router tc = ⟨Role.tool, formatToolResult r, tc.name, []⟩) := by
  refine ⟨fun s => rfl, fun b => rfl, fun r doc => rfl, fun r => rfl,
    ?_, ?_, ?_, ?_⟩
  · intro s h
    unfold truncateString
    rw [if_pos h]
  · intro s h
    unfold truncateString
    rw [if_neg (by omega)]
  · intro s
    unfold truncateString
    by_cases h : s.length ≤ 500
    · rw [if_pos h]
      omega
    · rw [if_neg h]
      have hlen : (String.mk (s.data.take 500) ++ "... (truncated)").length =
          (s.data.take 500).length + 15 := by
        rw [String.length_append]
        rfl
      rw [hlen, List.length_take]
      omega
  · intro router tc r h
    unfold toolReply
    rw [h]

/-! ## C3: streaming accumulation at the completion fragment -/

def fragEx1 : ChatResponse := ⟨⟨Role.assistant, "Hel", "", [ghostCall]⟩, false⟩

def fragEx2 : ChatResponse := ⟨⟨Role.assistant, "lo", "", []⟩, true⟩

def fragEx3 : ChatResponse := ⟨⟨Role.assistant, "Hi", "", [ghostCall]⟩, true⟩

/-- C3 (code evaluated at the failing input): on a stream whose first
fragment carries one tool call and whose completion fragment carries
none, `runInferenceStreaming` returns the concatenated content but an
empty tool-call list — the assignment of the completion fragment's
message to the final message discards the previously accumulated tool
calls; dually, a tool call carried by the completion fragment itself is
first assigned and then appended again, appearing twice. -/
theorem streaming_tool_calls_lost :
    (runInferenceStreaming [fragEx1, fragEx2]).content = "Hello" ∧
    (runInferenceStreaming [fragEx1, fragEx2]).toolCalls = [] ∧
    fragEx1.message.toolCalls ++ fragEx2.message.toolCalls = [ghostCall] ∧
    (runInferenceStreaming [fragEx3]).content = "Hi" ∧
    (runInferenceStreaming [fragEx3]).toolCalls = [ghostCall, ghostCall] := by
  refine ⟨rfl, rfl, rfl, rfl, rfl⟩

end MCPAgent
